import Mathlib

/-!
Verification development for the `sargam-v1` notation parser
(`sargam_parser.py`): a shallow embedding of the token decoder
(`parse_token`) and the cell parser (`parse_music_cell`), followed by
theorems settling the specification claims.

Modelling conventions:
* Python strings are embedded as `List Char` (`Str`); the public entry
  point `parse_music_cell` accepts `List String` and converts.
* Python floats are embedded as `ℚ`; `pyFloat` models `float(...)` on
  plain decimal literals (optional sign, digits, optional fractional
  part).  Exotic float syntax (exponents, `inf`, `nan`, underscores) is
  outside the model; no claim exercises it.
* The regexes of the source are embedded as the equivalent deterministic
  character-list functions (each one is noted at its definition).
* `ParserState` carries, besides the fields mutated by the Python code
  (`directives`, `voices`, `current_voice`, `logical_line_index`,
  `default_duration`), a ghost `trace` recording every appended event
  together with the physical index of the line it came from, in emission
  order.  The trace never influences parsing; it only makes the
  logical-line bookkeeping observable in theorem statements.
-/

namespace SargamV1

/-- Python strings, embedded as lists of characters. -/
abbrev Str := List Char

/-- The whitespace characters recognised by Python's `str.split()` /
`str.strip()` for the ASCII inputs this format uses. -/
def isPySpace (c : Char) : Bool :=
  c == ' ' || c == '\t' || c == '\n' || c == '\r' || c == '\x0b' || c == '\x0c'

/-- `s.strip(chars)`: drop characters satisfying `p` from both ends. -/
def pyStripChars (p : Char → Bool) (cs : Str) : Str :=
  ((cs.dropWhile p).reverse.dropWhile p).reverse

/-- Python `s.strip()` (whitespace at both ends). -/
def pyStrip (cs : Str) : Str := pyStripChars isPySpace cs

/-- Python `raw_line.strip('\n')` as used at the top of the line loop. -/
def pyStripNL (cs : Str) : Str := pyStripChars (· == '\n') cs

/-- Python `lyric_part.strip('"')`. -/
def pyStripQuotes (cs : Str) : Str := pyStripChars (· == '"') cs

/-- `not line.strip()`: the line is empty or whitespace-only. -/
def pyIsBlank (cs : Str) : Bool := cs.all isPySpace

/-- Python `str.lower()` (ASCII). -/
def lowerStr (cs : Str) : Str := cs.map Char.toLower

/-- `line.startswith(c)` for a single character. -/
def startsWithC (c : Char) : Str → Bool
  | [] => false
  | a :: _ => a == c

/-- `s.startswith(p)` for a general pattern. -/
def startsWithList (p s : Str) : Bool := s.take p.length == p

/-- Helper for `pySplitWS`: accumulate the current token (reversed). -/
def splitWSAux : Str → Str → List Str
  | [], acc => if acc.isEmpty then [] else [acc.reverse]
  | c :: cs, acc =>
    if isPySpace c then
      if acc.isEmpty then splitWSAux cs [] else acc.reverse :: splitWSAux cs []
    else splitWSAux cs (c :: acc)

/-- Python `s.split()`: split on whitespace runs, discarding empties. -/
def pySplitWS (cs : Str) : List Str := splitWSAux cs []

/-- Python `s.split(maxsplit=1)` feeding `key, *rest = ...`:
`none` models the `ValueError` Python raises when the list is empty
(the line holds nothing after `@`); otherwise the first token and the
remainder (leading whitespace removed, rest verbatim). -/
def pySplitMax1 (s : Str) : Option (Str × Str) :=
  let t := s.dropWhile isPySpace
  if t.isEmpty then none
  else some (t.takeWhile (fun c => !isPySpace c),
             (t.dropWhile (fun c => !isPySpace c)).dropWhile isPySpace)

/-- Python `s.split(',')` (keeps empty pieces), helper. -/
def splitOnCommaAux : Str → Str → List Str
  | [], acc => [acc.reverse]
  | c :: cs, acc =>
    if c == ',' then acc.reverse :: splitOnCommaAux cs []
    else splitOnCommaAux cs (c :: acc)

/-- Python `s.split(',')`. -/
def splitOnComma (cs : Str) : List Str := splitOnCommaAux cs []

/-- Numeric value of a digit string (most significant first). -/
def digitsVal (ds : Str) : Nat := ds.foldl (fun a c => a * 10 + (c.toNat - 48)) 0

/-- The rational `sign * (intDigits + fracDigits / 10^|fracDigits|)`,
assembled with integer arithmetic and a single `mkRat` so that concrete
values reduce in the kernel. -/
def decimalVal (neg : Bool) (ip fp : Str) : ℚ :=
  mkRat ((if neg then -1 else 1) * (digitsVal ip * 10 ^ fp.length + digitsVal fp : Nat))
    (10 ^ fp.length)

/-- Python `float(value)` on the decimal literals this format uses:
surrounding whitespace, an optional sign, then `digits`, `digits.`,
`digits.digits` or `.digits`.  `none` models `ValueError`. -/
def pyFloat (s : Str) : Option ℚ :=
  let cs := pyStrip s
  let signed : Bool × Str :=
    match cs with
    | '+' :: r => (false, r)
    | '-' :: r => (true, r)
    | r => (false, r)
  let ip := signed.2.takeWhile Char.isDigit
  let r1 := signed.2.dropWhile Char.isDigit
  match r1 with
  | [] => if ip.isEmpty then none else some (decimalVal signed.1 ip [])
  | '.' :: r2 =>
    let fp := r2.takeWhile Char.isDigit
    if !(r2.dropWhile Char.isDigit).isEmpty then none
    else if ip.isEmpty && fp.isEmpty then none
    else some (decimalVal signed.1 ip fp)
  | _ => none

/-- The microtone unit captured by `_microtone_re`'s group `(?P<unit>c|st)`:
the source stores the matched text, which the regex restricts to exactly
`"c"` (cents) or `"st"` (semitones); we embed that two-element carrier as
an inductive type. -/
inductive MicroUnit
  | cents
  | semitones
deriving DecidableEq, Repr

/-- `_microtone_re.fullmatch(remaining_mods)` for
`n(?P<sign>[+-])(?P<value>\d+(?:\.\d+)?)(?P<unit>c|st)`, together with the
source's `(sign * value, unit)` construction.  The regex is deterministic
on full matches (the unit cannot start with a digit), so greedy digit
consumption is faithful. -/
def microtoneFullmatch (cs : Str) : Option (ℚ × MicroUnit) :=
  match cs with
  | 'n' :: s :: rest =>
    if s == '+' || s == '-' then
      let ds := rest.takeWhile Char.isDigit
      let r1 := rest.dropWhile Char.isDigit
      if ds.isEmpty then none
      else
        let neg : Bool := !(s == '+')
        let fr : ℚ × Str :=
          match r1 with
          | '.' :: r2 =>
            let fs := r2.takeWhile Char.isDigit
            if fs.isEmpty then (decimalVal neg ds [], r1)
            else (decimalVal neg ds fs, r2.dropWhile Char.isDigit)
          | _ => (decimalVal neg ds [], r1)
        match fr.2 with
        | ['c'] => some (fr.1, MicroUnit.cents)
        | ['s', 't'] => some (fr.1, MicroUnit.semitones)
        | _ => none
    else none
  | _ => none

/-- An ornament, as in the `Ornament` dataclass. -/
structure Ornament where
  name : Str
  params : List Str
deriving DecidableEq, Repr

/-- The `NoteEvent` dataclass. -/
structure NoteEvent where
  swara : Str
  octave : Int
  variant : Option Str
  microtone : Option (ℚ × MicroUnit)
  duration : ℚ
  line_index : Nat
  ornaments : List Ornament
  lyric : Option Str
deriving DecidableEq, Repr

/-- The `RestEvent` dataclass. -/
structure RestEvent where
  duration : ℚ
  line_index : Nat
deriving DecidableEq, Repr

/-- The `HoldEvent` dataclass. -/
structure HoldEvent where
  duration : ℚ
  line_index : Nat
deriving DecidableEq, Repr

/-- The `BarEvent` dataclass. -/
structure BarEvent where
  double : Bool
  line_index : Nat
deriving DecidableEq, Repr

/-- `Event = Union[NoteEvent, RestEvent, HoldEvent, BarEvent]`. -/
inductive Event
  | note (n : NoteEvent)
  | rest (r : RestEvent)
  | hold (h : HoldEvent)
  | bar (b : BarEvent)
deriving DecidableEq, Repr

/-- The `line_index` field every event variant carries. -/
def evLineIndex : Event → Nat
  | .note n => n.line_index
  | .rest r => r.line_index
  | .hold h => h.line_index
  | .bar b => b.line_index

/-- The `duration` field (bars carry none). -/
def evDuration : Event → Option ℚ
  | .note n => some n.duration
  | .rest r => some r.duration
  | .hold h => some h.duration
  | .bar _ => none

/-- The `variant` field (only notes carry one). -/
def evVariant : Event → Option Str
  | .note n => n.variant
  | _ => none

/-- `isinstance(event, BarEvent) and event.double`. -/
def isDoubleBar : Event → Bool
  | .bar b => b.double
  | _ => false

/-- The `Voice` dataclass. -/
structure Voice where
  name : Str
  events : List Event
deriving DecidableEq, Repr

/-- The `MusicCell` dataclass; both dicts keep insertion order, so they
are embedded as association lists. -/
structure MusicCell where
  directives : List (Str × Str)
  voices : List Voice
deriving DecidableEq, Repr

/-! ### The token decoder (`parse_token`) -/

/-- `'=' in token` split: `token.split('=', 1)` plus
`lyric = lyric_part.strip('"') if lyric_part else ''`. -/
def lyricSplit (cs : Str) : Str × Option Str :=
  if cs.contains '=' then
    let lp := (cs.dropWhile (fun c => !(c == '='))).drop 1
    (cs.takeWhile (fun c => !(c == '=')),
     some (if lp.isEmpty then [] else pyStripQuotes lp))
  else (cs, none)

/-- `re.search(r"(?<!n)\+", note_part)`: index of the first `'+'` not
immediately preceded by `'n'`; `prev` is the character just before the
current position. -/
def findOrnIdx (prev : Option Char) : Str → Option Nat
  | [] => none
  | c :: rest =>
    if c == '+' && !(prev == some 'n') then some 0
    else (findOrnIdx (some c) rest).map (· + 1)

/-- The ornament split of `parse_token` (base part, ornament part). -/
def ornamentSplit (cs : Str) : Str × Option Str :=
  match findOrnIdx none cs with
  | some i => (cs.take i, some (cs.drop (i + 1)))
  | none => (cs, none)

/-- Index of the last `':'` (`note_part.rfind(':')`). -/
def rfindColon (cs : Str) : Option Nat :=
  match cs.reverse.findIdx? (· == ':') with
  | some j => some (cs.length - 1 - j)
  | none => none

/-- The duration split of `parse_token`: find the last `':'`; if the
suffix parses as a float it is the duration and is removed, otherwise the
note-part is kept whole (`except ValueError: pass`). -/
def durationSplit (cs : Str) : Str × Option ℚ :=
  match rfindColon cs with
  | none => (cs, none)
  | some i =>
    match pyFloat (cs.drop (i + 1)) with
    | some d => (cs.take i, some d)
    | none => (cs, none)

/-- Whether the character at the head of the suffix starts a match of the
modifier regex `[',#b]|n[+-]|[kt](?![a-z])`. -/
def isModHead : Str → Bool
  | [] => false
  | c :: rest =>
    c == '\'' || c == ',' || c == '#' || c == 'b' ||
    (c == 'n' && (match rest with
      | d :: _ => d == '+' || d == '-'
      | [] => false)) ||
    ((c == 'k' || c == 't') && (match rest with
      | d :: _ => !('a' ≤ d && d ≤ 'z')
      | [] => true))

/-- `re.search(r"[',#b]|n[+-]|[kt](?![a-z])", note_part)`: index of the
leftmost match. -/
def findModIdx : Str → Option Nat
  | [] => none
  | c :: rest =>
    if isModHead (c :: rest) then some 0
    else (findModIdx rest).map (· + 1)

/-- `komal_map = {'r': 'R', 'g': 'G', 'd': 'D', 'n': 'N'}` (only ever
applied to those four characters). -/
def komalMap (c : Char) : Str :=
  if c == 'r' then ['R'] else if c == 'g' then ['G']
  else if c == 'd' then ['D'] else ['N']

/-- The non-komal swara/modifier split (swara, modifier text, komal?). -/
def normalSplit (cs : Str) : Str × Str × Bool :=
  match findModIdx cs with
  | some i => (cs.take i, cs.drop i, false)
  | none => (cs, [], false)

/-- Steps at lines 252–282 of the source: lower-case komal shorthand
(`re.match(r"^([rgdn])(.*)$", ...)`, which always succeeds under the
`note_part[0] in komal_map` guard, so the source's inner fallback branch
is unreachable), otherwise the modifier-regex split. -/
def swaraSplit (cs : Str) : Str × Str × Bool :=
  match cs with
  | c :: rest =>
    if c == 'r' || c == 'g' || c == 'd' || c == 'n' then (komalMap c, rest, true)
    else normalSplit cs
  | [] => normalSplit []

/-- Octave offset: `+1` per `'`, `-1` per `,`, scanned left to right. -/
def octaveOf (mods : Str) : Int :=
  mods.foldl (fun o c => if c == '\'' then o + 1 else if c == ',' then o - 1 else o) 0

/-- `mods_part.replace("'", "").replace(",", "")`. -/
def residualMods (mods : Str) : Str :=
  mods.filter (fun c => !(c == '\'') && !(c == ','))

/-- Lines 295–322 of the source: resolve `variant` and `microtone` from
the residual modifier text, distinguishing the komal path. -/
def variantMicrotone (isKomal : Bool) (rem : Str) : Option Str × Option (ℚ × MicroUnit) :=
  if isKomal then
    (some ['k'], if rem.isEmpty then none else microtoneFullmatch rem)
  else if rem.isEmpty then (none, none)
  else
    match microtoneFullmatch rem with
    | some m => (none, some m)
    | none => (some rem, none)

/-- `([A-Za-z_]+)` of the ornament regex. -/
def isIdentChar (c : Char) : Bool := c.isAlpha || c == '_'

/-- One comma-separated ornament spec: strip; skip if empty; match
`re.match(r"([A-Za-z_]+)(\((.*?)\))?$", part)` (the parenthesised group,
when present, must reach the end of the spec, so its content is forced);
a non-matching spec is recorded raw. -/
def parseOrnamentPart (p : Str) : Option Ornament :=
  let part := pyStrip p
  if part.isEmpty then none
  else
    let name := part.takeWhile isIdentChar
    let rest := part.dropWhile isIdentChar
    if name.isEmpty then some ⟨part, []⟩
    else
      match rest with
      | [] => some ⟨name, []⟩
      | '(' :: r =>
        if r.getLast? == some ')' then
          some ⟨name, ((splitOnComma r.dropLast).map pyStrip).filter (fun q => !q.isEmpty)⟩
        else some ⟨part, []⟩
      | _ => some ⟨part, []⟩

/-- The note-token path of `parse_token` (lines 219–354): lyric split,
ornament split, duration split, swara/modifier split, octave marks,
variant vs. microtone, ornament parsing, assembly.  Total: every token
reaching this path yields a `NoteEvent`. -/
def decodeNote (token : Str) (dd : ℚ) (li : Nat) : NoteEvent :=
  let ls := lyricSplit token
  let os := ornamentSplit ls.1
  let ds := durationSplit os.1
  let ss := swaraSplit ds.1
  let vm := variantMicrotone ss.2.2 (residualMods ss.2.1)
  { swara := ss.1
    octave := octaveOf ss.2.1
    variant := vm.1
    microtone := vm.2
    duration := ds.2.getD dd
    line_index := li
    ornaments := match os.2 with
      | some op => (splitOnComma op).filterMap parseOrnamentPart
      | none => []
    lyric := ls.2 }

/-- The rest/hold remainder: `token[1:]`, with one leading `':'`
stripped. -/
def restHoldRemainder (rest0 : Str) : Str :=
  match rest0 with
  | ':' :: r => r
  | r => r

/-- `float(remainder) if remainder else default_duration` of the
rest/hold branch; `none` models the caught `ValueError`. -/
def restHoldDuration (rest0 : Str) (default_duration : ℚ) : Option ℚ :=
  if (restHoldRemainder rest0).isEmpty then some default_duration
  else pyFloat (restHoldRemainder rest0)

/-- `parse_token(token, default_duration, line_index)`: bars, rest/hold
with optional duration, otherwise the note path.  `none` models the
source's `return None` (only reachable for a rest/hold whose duration
text does not parse). -/
def parse_token (token : Str) (default_duration : ℚ) (line_index : Nat) : Option Event :=
  if token = "|".toList then some (.bar ⟨false, line_index⟩)
  else if token = "||".toList then some (.bar ⟨true, line_index⟩)
  else
    match token with
    | sym :: rest0 =>
      if sym == '_' || sym == '.' then
        match restHoldDuration rest0 default_duration with
        | none => none
        | some d =>
          if sym == '_' then some (.rest ⟨d, line_index⟩)
          else some (.hold ⟨d, line_index⟩)
      else some (.note (decodeNote token default_duration line_index))
    | [] => some (.note (decodeNote token default_duration line_index))

/-- The explicit duration carried by a token's own text, extracted with
the decoder's own split functions: the rest/hold remainder, or the
note-path duration split.  `none` when the token supplies no parsable
explicit duration (bars never do). -/
def tokenExplicitDur (token : Str) : Option ℚ :=
  if token = "|".toList ∨ token = "||".toList then none
  else if startsWithC '_' token || startsWithC '.' token then
    if (restHoldRemainder (token.drop 1)).isEmpty then none
    else pyFloat (restHoldRemainder (token.drop 1))
  else (durationSplit (ornamentSplit (lyricSplit token).1).1).2

/-! ### The cell parser (`parse_music_cell`) -/

/-- The mutable state of one `parse_music_cell` call, plus the ghost
emission `trace` (physical line index, event) described in the header. -/
structure ParserState where
  directives : List (Str × Str)
  voices : List Voice
  current_voice : Option Str
  logical_line_index : Nat
  default_duration : ℚ
  trace : List (Nat × Event)
deriving DecidableEq, Repr

/-- `directives[key] = value` on an insertion-ordered dict. -/
def alistSet (l : List (Str × Str)) (k v : Str) : List (Str × Str) :=
  if l.any (fun p => p.1 == k) then
    l.map (fun p => if p.1 == k then (k, v) else p)
  else l ++ [(k, v)]

/-- `voices.setdefault(name, Voice(name=name))`. -/
def voicesSetdefault (vs : List Voice) (n : Str) : List Voice :=
  if vs.any (fun v => v.name == n) then vs else vs ++ [⟨n, []⟩]

/-- `current_voice.events.append(event)` through the voice dict. -/
def voicesAppend (vs : List Voice) (n : Str) (e : Event) : List Voice :=
  vs.map (fun v => if v.name == n then ⟨v.name, v.events ++ [e]⟩ else v)

/-- The per-token body of the note-line loop (lines 181–187): decode,
append to the active voice (and the ghost trace), and bump the logical
line counter after a double bar.  `i` is the physical line index, used
only by the ghost trace. -/
def processToken (i : Nat) (st : ParserState) (tok : Str) : ParserState :=
  match parse_token tok st.default_duration st.logical_line_index with
  | none => st
  | some ev =>
    let st' : ParserState :=
      { st with
        voices := match st.current_voice with
          | some n => voicesAppend st.voices n ev
          | none => st.voices
        trace := st.trace ++ [(i, ev)] }
    if isDoubleBar ev then
      { st' with logical_line_index := st'.logical_line_index + 1 }
    else st'

/-- Tokenization of a note line (lines 175–180): cut everything from the
first `'#'`, strip, split on whitespace. -/
def noteLineTokens (line : Str) : List Str :=
  pySplitWS (pyStrip (line.takeWhile (fun c => !(c == '#'))))

/-- The body of the per-line loop of `parse_music_cell` (lines 146–187).
`none` models the uncaught `ValueError` on a directive line holding
nothing after `@`. -/
def processLine (idx : Nat) (st : ParserState) (rawLine : Str) : Option ParserState :=
  let line := pyStripNL rawLine
  if pyIsBlank line then some st
  else
    let st := if 0 < idx then { st with logical_line_index := st.logical_line_index + 1 } else st
    if startsWithC '@' line then
      match pySplitMax1 (line.drop 1) with
      | none => none
      | some kv =>
        let keyL := lowerStr kv.1
        let st := { st with directives := alistSet st.directives keyL kv.2 }
        if keyL = "default_duration".toList then
          some { st with default_duration := (pyFloat kv.2).getD 1 }
        else some st
    else if startsWithList "#voice".toList (lowerStr line) then
      let parts := pySplitWS line
      let name := match parts with
        | _ :: n :: _ => n
        | _ => "default".toList
      some { st with voices := voicesSetdefault st.voices name, current_voice := some name }
    else
      let st := if st.current_voice = none then
          { st with voices := voicesSetdefault st.voices "default".toList,
                    current_voice := some "default".toList }
        else st
      some ((noteLineTokens line).foldl (processToken idx) st)

/-- The initial state: empty maps, no active voice, counter `0`,
default duration `1.0`. -/
def initState : ParserState :=
  { directives := [], voices := [], current_voice := none,
    logical_line_index := 0, default_duration := 1, trace := [] }

/-- `for idx, raw_line in enumerate(lines)` starting at index `i`. -/
def runLinesAux (i : Nat) (st : ParserState) : List Str → Option ParserState
  | [] => some st
  | l :: ls =>
    match processLine i st l with
    | none => none
    | some st' => runLinesAux (i + 1) st' ls

/-- The full `parse_music_cell` loop, returning the final state. -/
def runLines (lines : List Str) : Option ParserState :=
  runLinesAux 0 initState lines

/-- `parse_music_cell(lines)`: the final `MusicCell`. -/
def parse_music_cell (lines : List String) : Option MusicCell :=
  (runLines (lines.map String.toList)).map fun st =>
    { directives := st.directives, voices := st.voices }

/-! ### Claim theorems: concrete examples and counterexamples -/

/-- C3: decoding the one-line input `["Rn+30c"]` with the initial default
duration `1.0` yields exactly one `NoteEvent` in voice `"default"` with
swara `"R"`, no variant, and microtone `(+30.0, cents)` (the unit value
being the `c`-alternative, i.e. cents, of the two-element unit carrier). -/
theorem C3_microtone_example :
    parse_music_cell ["Rn+30c"] =
      some { directives := [],
             voices := [⟨"default".toList,
               [.note { swara := "R".toList, octave := 0, variant := none,
                        microtone := some (30, MicroUnit.cents), duration := 1,
                        line_index := 0, ornaments := [], lyric := none }]⟩] } := by
  decide

/-- C6: for every default duration and line index, tokens `r`/`Rk`,
`g`/`Gk`, `d`/`Dk`, `n`/`Nk` decode to identical events, and the one-line
input `["g"]` yields a single `NoteEvent` with swara `"G"` and variant
`"k"`. -/
theorem C6_komal_equivalence :
    (∀ (dd : ℚ) (li : Nat),
      parse_token "r".toList dd li = parse_token "Rk".toList dd li ∧
      parse_token "g".toList dd li = parse_token "Gk".toList dd li ∧
      parse_token "d".toList dd li = parse_token "Dk".toList dd li ∧
      parse_token "n".toList dd li = parse_token "Nk".toList dd li) ∧
    parse_music_cell ["g"] =
      some { directives := [],
             voices := [⟨"default".toList,
               [.note { swara := "G".toList, octave := 0, variant := some "k".toList,
                        microtone := none, duration := 1, line_index := 0,
                        ornaments := [], lyric := none }]⟩] } := by
  exact ⟨fun dd li => ⟨rfl, rfl, rfl, rfl⟩, by decide⟩

/-- C1 counterexample: on the komal-shorthand token `"rn+30c"` the decoder
sets BOTH the variant (`"k"`) and the microtone (`(+30.0, cents)`), so the
claimed mutual exclusivity fails for lower-case komal tokens. -/
theorem C1_counterexample :
    parse_token "rn+30c".toList 1 0 =
      some (.note { swara := "R".toList, octave := 0, variant := some "k".toList,
                    microtone := some (30, MicroUnit.cents), duration := 1,
                    line_index := 0, ornaments := [], lyric := none }) := by
  decide

/-- C2 counterexample: the token `"123"` contains no letter sequence, yet
the decoder returns a `NoteEvent` (with the digits stored verbatim as the
swara) instead of "unrecognized", and `parse_music_cell` appends that
event to the `"default"` voice. -/
theorem C2_counterexample :
    parse_token "123".toList 1 0 =
      some (.note { swara := "123".toList, octave := 0, variant := none,
                    microtone := none, duration := 1, line_index := 0,
                    ornaments := [], lyric := none }) ∧
    parse_music_cell ["123"] =
      some { directives := [],
             voices := [⟨"default".toList,
               [.note { swara := "123".toList, octave := 0, variant := none,
                        microtone := none, duration := 1, line_index := 0,
                        ornaments := [], lyric := none }]⟩] } := by
  exact ⟨by decide, by decide⟩

/-- C7 counterexample: with positive default duration `1.0`, the token
`"S:0"` decodes to a `NoteEvent` whose duration is `0`, refuting the
claim that returned durations are always positive. -/
theorem C7_counterexample :
    parse_token "S:0".toList 1 0 =
      some (.note { swara := "S".toList, octave := 0, variant := none,
                    microtone := none, duration := 0, line_index := 0,
                    ornaments := [], lyric := none }) := by
  decide

/-! ### Decoder structure lemmas and amended claims C1, C2, C7 -/

/-- Any event returned by the decoder carries the passed-in line index. -/
theorem parse_token_lineIndex (tok : Str) (dd : ℚ) (li : Nat) (ev : Event)
    (h : parse_token tok dd li = some ev) : evLineIndex ev = li := by
  unfold parse_token at h
  repeat' split at h
  all_goals first
    | (cases Option.some.inj h; rfl)
    | cases h

/-- A decoded note is exactly `decodeNote` on the token. -/
theorem parse_token_note (tok : Str) (dd : ℚ) (li : Nat) (n : NoteEvent)
    (h : parse_token tok dd li = some (.note n)) : n = decodeNote tok dd li := by
  unfold parse_token at h
  repeat' split at h
  all_goals first
    | (cases Option.some.inj h; rfl)
    | (cases Option.some.inj h)
    | cases h

/-- The variant/microtone fields of a decoded note are those computed by
`variantMicrotone` on the komal flag and residual modifier text. -/
theorem decodeNote_vm (t : Str) (dd : ℚ) (li : Nat) :
    ((decodeNote t dd li).variant, (decodeNote t dd li).microtone) =
      variantMicrotone (swaraSplit (durationSplit (ornamentSplit (lyricSplit t).1).1).1).2.2
        (residualMods (swaraSplit (durationSplit (ornamentSplit (lyricSplit t).1).1).1).2.1) := rfl

/-- Variant and microtone are simultaneously set only on the komal path,
where the variant is the flat tag. -/
theorem variantMicrotone_both (k : Bool) (r : Str)
    (h1 : (variantMicrotone k r).1.isSome) (h2 : (variantMicrotone k r).2.isSome) :
    (variantMicrotone k r).1 = some "k".toList ∧ k = true := by
  cases k
  · unfold variantMicrotone at h1 h2
    simp only [Bool.false_eq_true, if_false] at h1 h2
    split at h1
    · simp at h1
    · split at h1 <;> simp_all
  · exact ⟨by unfold variantMicrotone; simp, rfl⟩

/-- C1 (amended): `variant` and `microtone` are mutually exclusive on all
non-komal tokens; on a komal-shorthand token both may be present, and in
that case the variant is exactly the flat tag `"k"`.  Formally: whenever a
decoded note has both fields set, its variant is `some "k"`. -/
theorem C1_amended (tok : Str) (dd : ℚ) (li : Nat) (n : NoteEvent)
    (h : parse_token tok dd li = some (.note n))
    (hv : n.variant.isSome) (hm : n.microtone.isSome) :
    n.variant = some "k".toList := by
  cases parse_token_note tok dd li n h
  have hvm := decodeNote_vm tok dd li
  have h1 : ((variantMicrotone (swaraSplit (durationSplit (ornamentSplit (lyricSplit tok).1).1).1).2.2
      (residualMods (swaraSplit (durationSplit (ornamentSplit (lyricSplit tok).1).1).1).2.1)).1).isSome := by
    rw [← congrArg Prod.fst hvm]; exact hv
  have h2 : ((variantMicrotone (swaraSplit (durationSplit (ornamentSplit (lyricSplit tok).1).1).1).2.2
      (residualMods (swaraSplit (durationSplit (ornamentSplit (lyricSplit tok).1).1).1).2.1)).2).isSome := by
    rw [← congrArg Prod.snd hvm]; exact hm
  have h3 := (variantMicrotone_both _ _ h1 h2).1
  rw [← congrArg Prod.fst hvm] at h3
  exact h3

/-- C1 witness: the amended theorem applied to the komal token `"rn+30c"`,
whose decoded note has both fields set. -/
theorem C1_amended_witness :
    (decodeNote "rn+30c".toList 1 0).variant = some "k".toList :=
  C1_amended "rn+30c".toList 1 0 (decodeNote "rn+30c".toList 1 0) rfl
    (by decide) (by decide)

/-- C2 (amended): a non-empty token that is not a bar token and does not
start with `_` or `.` always yields a `NoteEvent` (namely `decodeNote` on
the token) — the decoder never answers "unrecognized" for such tokens,
even when no letter sequence is present. -/
theorem C2_amended (tok : Str) (dd : ℚ) (li : Nat)
    (h0 : tok ≠ []) (h1 : tok ≠ "|".toList) (h2 : tok ≠ "||".toList)
    (h3 : startsWithC '_' tok = false) (h4 : startsWithC '.' tok = false) :
    parse_token tok dd li = some (.note (decodeNote tok dd li)) := by
  unfold parse_token
  rw [if_neg h1, if_neg h2]
  match tok, h0 with
  | c :: r, _ =>
    have e3 : (c == '_') = false := h3
    have e4 : (c == '.') = false := h4
    simp [e3, e4]

/-- C2 witness: the amended theorem applied to the all-digit token `"123"`. -/
theorem C2_amended_witness :
    parse_token "123".toList 1 0 = some (.note (decodeNote "123".toList 1 0)) :=
  C2_amended "123".toList 1 0 (by decide) (by decide) (by decide) (by decide) (by decide)

/-- Every duration the decoder emits is either the default duration or
the token's own explicitly parsed duration. -/
theorem parse_token_duration (tok : Str) (dd : ℚ) (li : Nat) (ev : Event)
    (h : parse_token tok dd li = some ev) (d : ℚ) (hd : evDuration ev = some d) :
    d = dd ∨ tokenExplicitDur tok = some d := by
  unfold parse_token at h
  split at h
  · cases Option.some.inj h; cases hd
  · rename_i hb1
    split at h
    · cases Option.some.inj h; cases hd
    · rename_i hb2
      have hnor : ¬(tok = "|".toList ∨ tok = "||".toList) := fun hor => hor.elim hb1 hb2
      split at h
      · rename_i sym rest0
        split at h
        · rename_i hsd
          split at h
          · cases h
          · rename_i q heq
            unfold restHoldDuration at heq
            split at heq
            · cases Option.some.inj heq
              split at h <;> (cases Option.some.inj h; cases Option.some.inj hd; exact Or.inl rfl)
            · rename_i hemp
              refine Or.inr ?_
              unfold tokenExplicitDur
              rw [if_neg hnor,
                if_pos (show (startsWithC '_' (sym :: rest0) || startsWithC '.' (sym :: rest0)) = true from hsd),
                if_neg (show ¬((restHoldRemainder ((sym :: rest0).drop 1)).isEmpty = true) from hemp)]
              show pyFloat (restHoldRemainder rest0) = some d
              split at h <;> (cases Option.some.inj h; cases Option.some.inj hd; exact heq)
        · rename_i hsd
          cases Option.some.inj h
          cases Option.some.inj hd
          rcases hds : (durationSplit (ornamentSplit (lyricSplit (sym :: rest0)).1).1).2 with _ | q
          · refine Or.inl ?_
            show (durationSplit (ornamentSplit (lyricSplit (sym :: rest0)).1).1).2.getD dd = dd
            rw [hds]; rfl
          · refine Or.inr ?_
            unfold tokenExplicitDur
            rw [if_neg hnor,
              if_neg (show ¬((startsWithC '_' (sym :: rest0) || startsWithC '.' (sym :: rest0)) = true) from hsd)]
            show (durationSplit (ornamentSplit (lyricSplit (sym :: rest0)).1).1).2 =
              some ((durationSplit (ornamentSplit (lyricSplit (sym :: rest0)).1).1).2.getD dd)
            rw [hds]; rfl
      · cases Option.some.inj h
        cases Option.some.inj hd
        rcases hds : (durationSplit (ornamentSplit (lyricSplit ([] : Str)).1).1).2 with _ | q
        · refine Or.inl ?_
          show (durationSplit (ornamentSplit (lyricSplit ([] : Str)).1).1).2.getD dd = dd
          rw [hds]; rfl
        · refine Or.inr ?_
          unfold tokenExplicitDur
          rw [if_neg hnor]
          show (durationSplit (ornamentSplit (lyricSplit ([] : Str)).1).1).2 =
            some ((durationSplit (ornamentSplit (lyricSplit ([] : Str)).1).1).2.getD dd)
          rw [hds]; rfl

/-- C7 (amended): with a positive default duration, every note, rest and
hold returned by the decoder has a positive duration, provided the
explicit duration text carried by the token (when present and parsable)
denotes a positive number — every emitted duration is either the default
or that explicitly parsed value. -/
theorem C7_amended (tok : Str) (dd : ℚ) (li : Nat) (ev : Event)
    (hdd : 0 < dd)
    (h : parse_token tok dd li = some ev)
    (hx : ∀ q, tokenExplicitDur tok = some q → 0 < q) :
    ∀ d, evDuration ev = some d → 0 < d := by
  intro d hd
  rcases parse_token_duration tok dd li ev h d hd with h1 | h1
  · exact h1 ▸ hdd
  · exact hx d h1

/-- C7 witness: the amended theorem applied to the token `"S:2"` with
default duration `1`, whose explicit duration `2` is positive. -/
theorem C7_amended_witness : (0 : ℚ) < 2 := by
  have h := C7_amended "S:2".toList 1 0 (.note (decodeNote "S:2".toList 1 0))
    (by decide) rfl
    (fun q hq => by
      have h2 : tokenExplicitDur "S:2".toList = some (2 : ℚ) := by decide
      rw [h2] at hq
      cases Option.some.inj hq
      decide)
  exact h 2 (by decide)

/-! ### Claims C8 and C10: directive and comment lines -/

/-- C8: a `@default_duration v` directive line records the raw value under
the lower-cased key, adopts the parsed value as the new default duration
(silently resetting to `1.0` when `v` does not parse, regardless of the
previous default), produces no event, and subsequent duration-less tokens
decode with the new default: `["@default_duration 2", "_", "."]` yields
exactly `Rest(2.0)` then `Hold(2.0)`. -/
theorem C8_default_duration_directive :
    (parse_music_cell ["@default_duration 2", "_", "."] =
      some { directives := [("default_duration".toList, "2".toList)],
             voices := [⟨"default".toList,
               [.rest ⟨2, 1⟩, .hold ⟨2, 2⟩]⟩] }) ∧
    (∀ (dd : ℚ) (li : Nat),
      parse_token "_".toList dd li = some (.rest ⟨dd, li⟩) ∧
      parse_token ".".toList dd li = some (.hold ⟨dd, li⟩)) ∧
    ∀ (idx : Nat) (st : ParserState) (v : Str),
      pyStripNL ('@' :: ("default_duration ".toList ++ v)) =
        '@' :: ("default_duration ".toList ++ v) →
      processLine idx st ('@' :: ("default_duration ".toList ++ v)) =
        some { st with
          logical_line_index := st.logical_line_index + (if 0 < idx then 1 else 0),
          directives := alistSet st.directives "default_duration".toList (v.dropWhile isPySpace),
          default_duration := (pyFloat (v.dropWhile isPySpace)).getD 1 } := by
  refine ⟨by decide, fun dd li => ⟨rfl, rfl⟩, fun idx st v hnl => ?_⟩
  simp only [processLine]
  rw [hnl]
  by_cases hidx : 0 < idx <;> simp only [hidx, if_true, if_false, ite_true, ite_false] <;> rfl

/-- C8 witness: the directive part applied at physical index 1 with value
`"2"` on the initial state. -/
theorem C8_witness :
    processLine 1 initState ('@' :: ("default_duration ".toList ++ "2".toList)) =
      some { initState with
        logical_line_index := initState.logical_line_index + (if 0 < 1 then 1 else 0),
        directives := alistSet initState.directives "default_duration".toList
          ("2".toList.dropWhile isPySpace),
        default_duration := (pyFloat ("2".toList.dropWhile isPySpace)).getD 1 } :=
  C8_default_duration_directive.2.2 1 initState "2".toList (by decide)

/-- C10: a full-line comment (a non-blank line starting with `#` whose
lower-cased form does not start with `#voice`) emits no events, still
advances the logical-line counter when its physical index is positive,
and creates/activates the `"default"` voice when none is active; an input
of only such lines returns a cell with a `"default"` voice holding no
events. -/
theorem C10_comment_lines :
    (parse_music_cell ["# hello", "# world"] =
      some { directives := [], voices := [⟨"default".toList, []⟩] }) ∧
    ∀ (idx : Nat) (st : ParserState) (line : Str),
      startsWithC '#' line = true →
      startsWithList "#voice".toList (lowerStr line) = false →
      pyStripNL line = line →
      processLine idx st line =
        some { st with
          logical_line_index := st.logical_line_index + (if 0 < idx then 1 else 0),
          current_voice := some (st.current_voice.getD "default".toList),
          voices := if st.current_voice = none then
              voicesSetdefault st.voices "default".toList
            else st.voices } := by
  refine ⟨by decide, fun idx st line h1 h2 h3 => ?_⟩
  match line, h1, h2, h3 with
  | c :: cs, h1, h2, h3 =>
    have hc : c = '#' := eq_of_beq h1
    subst hc
    simp only [processLine]
    rw [h3, h2]
    by_cases hidx : 0 < idx <;>
      cases hcv : st.current_voice <;>
        simp only [hidx, hcv, if_true, if_false, ite_true, ite_false, reduceCtorEq,
          Bool.false_eq_true, Option.getD_none, Option.getD_some] <;>
        first
          | rfl
          | ((conv_rhs => rw [← hcv]); rfl)

/-- C10 witness: the comment-line part applied at physical index 1 to the
initial state (no active voice) on the line `"# x"`. -/
theorem C10_witness :
    processLine 1 initState "# x".toList =
      some { initState with
        logical_line_index := initState.logical_line_index + (if 0 < 1 then 1 else 0),
        current_voice := some (initState.current_voice.getD "default".toList),
        voices := if initState.current_voice = none then
            voicesSetdefault initState.voices "default".toList
          else initState.voices } :=
  C10_comment_lines.2 1 initState "# x".toList (by decide) (by decide) (by decide)

/-! ### Logical-line bookkeeping (claims C4, C5) -/

/-- Count of the non-blank lines whose physical index (starting the count
at `i`) is positive. -/
def nbCount : Nat → List Str → Nat
  | _, [] => 0
  | i, l :: ls =>
    (if 0 < i ∧ pyIsBlank (pyStripNL l) = false then 1 else 0) + nbCount (i + 1) ls

/-- The logical-line contribution of the physical lines `0..idx`. -/
def nbUpTo (lines : List Str) (idx : Nat) : Nat := nbCount 0 (lines.take (idx + 1))

/-- Number of double-bar events in a trace segment. -/
def dbCount : List (Nat × Event) → Nat
  | [] => 0
  | p :: t => (if isDoubleBar p.2 then 1 else 0) + dbCount t

/-- The logical-line rule: each traced event's line index equals the
non-blank-line count up to and including its own physical line plus the
number of double bars emitted before it. -/
def TraceOK (lines : List Str) (tr : List (Nat × Event)) : Prop :=
  ∀ (k : Nat) (p : Nat × Event), tr[k]? = some p →
    evLineIndex p.2 = nbUpTo lines p.1 + dbCount (tr.take k)

/-- All traced physical indices lie below `n`. -/
def TraceBound (n : Nat) (tr : List (Nat × Event)) : Prop := ∀ p ∈ tr, p.1 < n

/-- The counter/trace invariant maintained while lines are consumed. -/
def Inv (pre : List Str) (st : ParserState) : Prop :=
  st.logical_line_index = nbCount 0 pre + dbCount st.trace ∧
  TraceOK pre st.trace ∧ TraceBound pre.length st.trace

theorem nbCount_append : ∀ (xs : List Str) (i : Nat) (ys : List Str),
    nbCount i (xs ++ ys) = nbCount i xs + nbCount (i + xs.length) ys
  | [], i, ys => by simp [nbCount]
  | l :: ls, i, ys => by
    have e : i + 1 + ls.length = i + (l :: ls).length := by
      simp only [List.length_cons]
      omega
    show (if 0 < i ∧ pyIsBlank (pyStripNL l) = false then 1 else 0)
        + nbCount (i + 1) (ls ++ ys) = _
    rw [nbCount_append ls (i + 1) ys, e]
    show _ = (if 0 < i ∧ pyIsBlank (pyStripNL l) = false then 1 else 0)
        + nbCount (i + 1) ls + nbCount (i + (l :: ls).length) ys
    omega

theorem dbCount_append : ∀ (t s : List (Nat × Event)),
    dbCount (t ++ s) = dbCount t + dbCount s
  | [], s => by simp [dbCount]
  | p :: t, s => by
    show (if isDoubleBar p.2 = true then 1 else 0) + dbCount (t ++ s) = _
    rw [dbCount_append t s]
    show _ = (if isDoubleBar p.2 = true then 1 else 0) + dbCount t + dbCount s
    omega

theorem nbUpTo_stable (pre more : List Str) (idx : Nat) (h : idx < pre.length) :
    nbUpTo (pre ++ more) idx = nbUpTo pre idx := by
  unfold nbUpTo
  rw [List.take_append_of_le_length (by omega)]

theorem traceOK_extend (pre more : List Str) (tr : List (Nat × Event))
    (hok : TraceOK pre tr) (hb : TraceBound pre.length tr) :
    TraceOK (pre ++ more) tr := by
  intro k p hk
  rw [nbUpTo_stable pre more p.1 (hb p (List.getElem?_mem hk))]
  exact hok k p hk

theorem traceOK_append (lines : List Str) (tr : List (Nat × Event)) (q : Nat × Event)
    (hok : TraceOK lines tr) (hq : evLineIndex q.2 = nbUpTo lines q.1 + dbCount tr) :
    TraceOK lines (tr ++ [q]) := by
  intro k p hk
  rcases lt_trichotomy k tr.length with hlt | heq | hgt
  · rw [List.getElem?_append, if_pos hlt] at hk
    rw [List.take_append_of_le_length (le_of_lt hlt)]
    exact hok k p hk
  · subst heq
    rw [List.getElem?_concat_length] at hk
    cases Option.some.inj hk
    rw [List.take_append_of_le_length (le_refl _), List.take_length]
    exact hq
  · rw [List.getElem?_eq_none (by simp; omega)] at hk
    cases hk

theorem processToken_inv (lines : List Str) (i : Nat) (hi : i + 1 = lines.length)
    (st : ParserState) (tok : Str)
    (hc : st.logical_line_index = nbCount 0 lines + dbCount st.trace)
    (hok : TraceOK lines st.trace) (hb : TraceBound lines.length st.trace) :
    (processToken i st tok).logical_line_index
        = nbCount 0 lines + dbCount (processToken i st tok).trace ∧
      TraceOK lines (processToken i st tok).trace ∧
      TraceBound lines.length (processToken i st tok).trace := by
  unfold processToken
  cases hp : parse_token tok st.default_duration st.logical_line_index with
  | none => exact ⟨hc, hok, hb⟩
  | some ev =>
    have hli : evLineIndex ev = st.logical_line_index := parse_token_lineIndex _ _ _ _ hp
    have hnb : nbUpTo lines i = nbCount 0 lines := by
      unfold nbUpTo; rw [hi, List.take_length]
    have hq : evLineIndex ev = nbUpTo lines i + dbCount st.trace := by
      rw [hli, hnb]; exact hc
    have hok' : TraceOK lines (st.trace ++ [(i, ev)]) := traceOK_append _ _ _ hok hq
    have hb' : TraceBound lines.length (st.trace ++ [(i, ev)]) := by
      intro p hp'
      rcases List.mem_append.mp hp' with h | h
      · exact hb p h
      · rcases List.mem_singleton.mp h with rfl
        show i < lines.length
        omega
    have hdb' : dbCount (st.trace ++ [(i, ev)])
        = dbCount st.trace + (if isDoubleBar ev = true then 1 else 0) := by
      rw [dbCount_append]; simp [dbCount]
    dsimp only
    by_cases hdb : isDoubleBar ev = true
    · rw [if_pos hdb]
      refine ⟨?_, hok', hb'⟩
      show st.logical_line_index + 1 = nbCount 0 lines + dbCount (st.trace ++ [(i, ev)])
      rw [hdb', if_pos hdb, hc]
      omega
    · rw [if_neg hdb]
      refine ⟨?_, hok', hb'⟩
      show st.logical_line_index = nbCount 0 lines + dbCount (st.trace ++ [(i, ev)])
      rw [hdb', if_neg hdb, hc]
      omega

theorem processTokens_inv (lines : List Str) (i : Nat) (hi : i + 1 = lines.length) :
    ∀ (toks : List Str) (st : ParserState),
      st.logical_line_index = nbCount 0 lines + dbCount st.trace →
      TraceOK lines st.trace → TraceBound lines.length st.trace →
      ((toks.foldl (processToken i) st).logical_line_index
          = nbCount 0 lines + dbCount (toks.foldl (processToken i) st).trace ∧
        TraceOK lines (toks.foldl (processToken i) st).trace ∧
        TraceBound lines.length (toks.foldl (processToken i) st).trace)
  | [], st, hc, hok, hb => ⟨hc, hok, hb⟩
  | t :: ts, st, hc, hok, hb => by
    have h1 := processToken_inv lines i hi st t hc hok hb
    exact processTokens_inv lines i hi ts (processToken i st t) h1.1 h1.2.1 h1.2.2

/-- The counter bump applied to every non-blank line past the first. -/
theorem bump_lli (st : ParserState) (n : Nat) :
    (if 0 < n then { st with logical_line_index := st.logical_line_index + 1 }
      else st).logical_line_index
      = st.logical_line_index + (if 0 < n then 1 else 0) := by
  by_cases h : 0 < n <;> simp [h]

theorem bump_trace (st : ParserState) (n : Nat) :
    (if 0 < n then { st with logical_line_index := st.logical_line_index + 1 }
      else st).trace = st.trace := by
  by_cases h : 0 < n <;> simp [h]

/-- The implicit-default-voice setup of a note line. -/
theorem cvsetup_lli (st : ParserState) :
    (if st.current_voice = none then
        { st with voices := voicesSetdefault st.voices "default".toList,
                  current_voice := some "default".toList }
      else st).logical_line_index = st.logical_line_index := by
  by_cases h : st.current_voice = none <;> simp [h]

theorem cvsetup_trace (st : ParserState) :
    (if st.current_voice = none then
        { st with voices := voicesSetdefault st.voices "default".toList,
                  current_voice := some "default".toList }
      else st).trace = st.trace := by
  by_cases h : st.current_voice = none <;> simp [h]

theorem processLine_inv (pre : List Str) (l : Str) (st st' : ParserState)
    (h : processLine pre.length st l = some st') (hinv : Inv pre st) :
    Inv (pre ++ [l]) st' := by
  obtain ⟨hc, hok, hb⟩ := hinv
  have hok' : TraceOK (pre ++ [l]) st.trace := traceOK_extend pre [l] st.trace hok hb
  have hb' : TraceBound (pre ++ [l]).length st.trace := by
    intro p hp
    have := hb p hp
    simp only [List.length_append, List.length_cons, List.length_nil]
    omega
  have hnbapp : nbCount 0 (pre ++ [l])
      = nbCount 0 pre
        + (if 0 < pre.length ∧ pyIsBlank (pyStripNL l) = false then 1 else 0) := by
    rw [nbCount_append]
    simp [nbCount]
  simp only [processLine] at h
  by_cases hbl : pyIsBlank (pyStripNL l) = true
  · rw [if_pos hbl] at h
    cases Option.some.inj h
    refine ⟨?_, hok', hb'⟩
    rw [hnbapp, hc]
    simp [hbl]
  · rw [if_neg hbl] at h
    have hbl' : pyIsBlank (pyStripNL l) = false := by
      cases hq : pyIsBlank (pyStripNL l)
      · rfl
      · exact absurd hq hbl
    have hnb1 : nbCount 0 (pre ++ [l])
        = nbCount 0 pre + (if 0 < pre.length then 1 else 0) := by
      rw [hnbapp, hbl']
      simp
    set st1 := (if 0 < pre.length then
        { st with logical_line_index := st.logical_line_index + 1 } else st) with hst1
    have hlli1 : st1.logical_line_index
        = st.logical_line_index + (if 0 < pre.length then 1 else 0) := by
      rw [hst1]; exact bump_lli st pre.length
    have htr1 : st1.trace = st.trace := by
      rw [hst1]; exact bump_trace st pre.length
    have hkey : st1.logical_line_index = nbCount 0 (pre ++ [l]) + dbCount st.trace := by
      rw [hlli1, hnb1, hc]
      omega
    split at h
    · -- directive line
      split at h
      · cases h
      · split at h
        · cases Option.some.inj h
          refine ⟨?_, ?_, ?_⟩
          · show st1.logical_line_index = nbCount 0 (pre ++ [l]) + dbCount st1.trace
            rw [htr1]; exact hkey
          · show TraceOK (pre ++ [l]) st1.trace
            rw [htr1]; exact hok'
          · show TraceBound (pre ++ [l]).length st1.trace
            rw [htr1]; exact hb'
        · cases Option.some.inj h
          refine ⟨?_, ?_, ?_⟩
          · show st1.logical_line_index = nbCount 0 (pre ++ [l]) + dbCount st1.trace
            rw [htr1]; exact hkey
          · show TraceOK (pre ++ [l]) st1.trace
            rw [htr1]; exact hok'
          · show TraceBound (pre ++ [l]).length st1.trace
            rw [htr1]; exact hb'
    · -- voice-switch or note line
      split at h
      · -- voice-switch line
        cases Option.some.inj h
        refine ⟨?_, ?_, ?_⟩
        · show st1.logical_line_index = nbCount 0 (pre ++ [l]) + dbCount st1.trace
          rw [htr1]; exact hkey
        · show TraceOK (pre ++ [l]) st1.trace
          rw [htr1]; exact hok'
        · show TraceBound (pre ++ [l]).length st1.trace
          rw [htr1]; exact hb'
      · -- note line
        cases Option.some.inj h
        set st2 := (if st1.current_voice = none then
            { st1 with voices := voicesSetdefault st1.voices "default".toList,
                       current_voice := some "default".toList } else st1) with hst2
        have hlli2 : st2.logical_line_index = st1.logical_line_index := by
          rw [hst2]; exact cvsetup_lli st1
        have htr2 : st2.trace = st1.trace := by
          rw [hst2]; exact cvsetup_trace st1
        have hi : pre.length + 1 = (pre ++ [l]).length := by simp
        refine processTokens_inv (pre ++ [l]) pre.length hi _ st2 ?_ ?_ ?_
        · rw [hlli2, htr2, htr1]; exact hkey
        · rw [htr2, htr1]; exact hok'
        · rw [htr2, htr1]; exact hb'

theorem runLinesAux_inv : ∀ (rest pre : List Str) (st st' : ParserState),
    runLinesAux pre.length st rest = some st' → Inv pre st → Inv (pre ++ rest) st'
  | [], pre, st, st', h, hinv => by
    cases Option.some.inj h
    simpa using hinv
  | l :: ls, pre, st, st', h, hinv => by
    unfold runLinesAux at h
    cases hpl : processLine pre.length st l with
    | none => rw [hpl] at h; cases h
    | some st1 =>
      rw [hpl] at h
      have h1 := processLine_inv pre l st st1 hpl hinv
      have h2 := runLinesAux_inv ls (pre ++ [l]) st1 st' (by simpa using h) h1
      simpa [List.append_assoc] using h2

/-- C4: the logical-line counter starts at `0`; a traced event's line
index equals the number of non-blank physical lines with positive index
up to and including the event's own line, plus the number of double-bar
events emitted before it (each double bar bumps the counter immediately,
before any later token is decoded). -/
theorem C4_logical_line_counter :
    initState.logical_line_index = 0 ∧
    ∀ (lines : List Str) (st : ParserState), runLines lines = some st →
      ∀ (k idx : Nat) (ev : Event), st.trace[k]? = some (idx, ev) →
        evLineIndex ev = nbUpTo lines idx + dbCount (st.trace.take k) := by
  refine ⟨rfl, fun lines st h k idx ev hk => ?_⟩
  have hinv : Inv [] initState :=
    ⟨rfl, fun k p hk => by simp [initState] at hk, fun p hp => by simp [initState] at hp⟩
  have h2 := runLinesAux_inv lines [] initState st h hinv
  have h3 := h2.2.1 k (idx, ev) (by simpa using hk)
  simpa using h3

/-- C4 witness: applied to `["", "S || R"]`, whose first line is blank;
the note after the double bar on physical line 1 carries line index
`(non-blank count 1) + (one earlier double bar) = 2`. -/
theorem C4_witness :
    evLineIndex (.note { swara := "R".toList, octave := 0, variant := none,
                         microtone := none, duration := 1, line_index := 2,
                         ornaments := [], lyric := none })
      = nbUpTo ["".toList, "S || R".toList] 1
        + dbCount [(1, .note { swara := "S".toList, octave := 0, variant := none,
                               microtone := none, duration := 1, line_index := 1,
                               ornaments := [], lyric := none }),
                   (1, .bar ⟨true, 1⟩)] := by
  have h := C4_logical_line_counter.2 ["".toList, "S || R".toList]
    { directives := [],
      voices := [⟨"default".toList,
        [.note { swara := "S".toList, octave := 0, variant := none,
                 microtone := none, duration := 1, line_index := 1,
                 ornaments := [], lyric := none },
         .bar ⟨true, 1⟩,
         .note { swara := "R".toList, octave := 0, variant := none,
                 microtone := none, duration := 1, line_index := 2,
                 ornaments := [], lyric := none }]⟩],
      current_voice := some "default".toList,
      logical_line_index := 2, default_duration := 1,
      trace := [(1, .note { swara := "S".toList, octave := 0, variant := none,
                            microtone := none, duration := 1, line_index := 1,
                            ornaments := [], lyric := none }),
                (1, .bar ⟨true, 1⟩),
                (1, .note { swara := "R".toList, octave := 0, variant := none,
                            microtone := none, duration := 1, line_index := 2,
                            ornaments := [], lyric := none })] }
    (by decide) 2 1
    (.note { swara := "R".toList, octave := 0, variant := none,
             microtone := none, duration := 1, line_index := 2,
             ornaments := [], lyric := none })
    (by decide)
  exact h

/-- The emitted line indexes, in emission order. -/
def traceLineIndexes (tr : List (Nat × Event)) : List Nat :=
  tr.map (fun p => evLineIndex p.2)

/-- Monotonicity invariant: emitted line indexes are sorted and bounded
by the current counter. -/
def MonoInv (st : ParserState) : Prop :=
  (traceLineIndexes st.trace).Pairwise (· ≤ ·) ∧
  ∀ p ∈ st.trace, evLineIndex p.2 ≤ st.logical_line_index

theorem processToken_mono (i : Nat) (st : ParserState) (tok : Str)
    (h : MonoInv st) : MonoInv (processToken i st tok) := by
  obtain ⟨hpw, hbd⟩ := h
  unfold processToken
  cases hp : parse_token tok st.default_duration st.logical_line_index with
  | none => exact ⟨hpw, hbd⟩
  | some ev =>
    have hli : evLineIndex ev = st.logical_line_index := parse_token_lineIndex _ _ _ _ hp
    have hpw' : (traceLineIndexes (st.trace ++ [(i, ev)])).Pairwise (· ≤ ·) := by
      unfold traceLineIndexes
      rw [List.map_append, List.pairwise_append]
      refine ⟨hpw, List.pairwise_singleton _ _, ?_⟩
      intro a ha b hb
      simp only [List.map_cons, List.map_nil, List.mem_singleton] at hb
      subst hb
      rcases List.mem_map.mp ha with ⟨p, hp', rfl⟩
      rw [hli]
      exact hbd p hp'
    have hbd' : ∀ p ∈ st.trace ++ [(i, ev)],
        evLineIndex p.2 ≤ st.logical_line_index := by
      intro p hp'
      rcases List.mem_append.mp hp' with hmem | hmem
      · exact hbd p hmem
      · rcases List.mem_singleton.mp hmem with rfl
        simp [hli]
    dsimp only
    by_cases hdb : isDoubleBar ev = true
    · rw [if_pos hdb]
      exact ⟨hpw', fun p hp' => le_trans (hbd' p hp') (Nat.le_succ _)⟩
    · rw [if_neg hdb]
      exact ⟨hpw', hbd'⟩

theorem processTokens_mono (i : Nat) : ∀ (toks : List Str) (st : ParserState),
    MonoInv st → MonoInv (toks.foldl (processToken i) st)
  | [], _, h => h
  | t :: ts, st, h =>
    processTokens_mono i ts (processToken i st t) (processToken_mono i st t h)

theorem processLine_mono (idx : Nat) (st st' : ParserState) (l : Str)
    (h : processLine idx st l = some st') (hm : MonoInv st) : MonoInv st' := by
  obtain ⟨hpw, hbd⟩ := hm
  simp only [processLine] at h
  split at h
  · cases Option.some.inj h; exact ⟨hpw, hbd⟩
  · set st1 := (if 0 < idx then
        { st with logical_line_index := st.logical_line_index + 1 } else st) with hst1
    have hlli1 : st.logical_line_index ≤ st1.logical_line_index := by
      rw [hst1, bump_lli st idx]; omega
    have htr1 : st1.trace = st.trace := by rw [hst1]; exact bump_trace st idx
    have hm1 : MonoInv st1 := by
      refine ⟨?_, ?_⟩
      · rw [htr1]; exact hpw
      · intro p hp'
        rw [htr1] at hp'
        exact le_trans (hbd p hp') hlli1
    split at h
    · split at h
      · cases h
      · split at h
        · cases Option.some.inj h
          exact ⟨hm1.1, hm1.2⟩
        · cases Option.some.inj h
          exact ⟨hm1.1, hm1.2⟩
    · split at h
      · cases Option.some.inj h
        exact ⟨hm1.1, hm1.2⟩
      · cases Option.some.inj h
        set st2 := (if st1.current_voice = none then
            { st1 with voices := voicesSetdefault st1.voices "default".toList,
                       current_voice := some "default".toList } else st1) with hst2
        have htr2 : st2.trace = st1.trace := by rw [hst2]; exact cvsetup_trace st1
        have hlli2 : st2.logical_line_index = st1.logical_line_index := by
          rw [hst2]; exact cvsetup_lli st1
        have hm2 : MonoInv st2 := by
          refine ⟨?_, ?_⟩
          · rw [htr2]; exact hm1.1
          · intro p hp'
            rw [htr2] at hp'
            rw [hlli2]
            exact hm1.2 p hp'
        exact processTokens_mono idx _ st2 hm2

theorem runLinesAux_mono : ∀ (rest : List Str) (i : Nat) (st st' : ParserState),
    runLinesAux i st rest = some st' → MonoInv st → MonoInv st'
  | [], _, _, _, h, hm => by cases Option.some.inj h; exact hm
  | l :: ls, i, st, st', h, hm => by
    unfold runLinesAux at h
    cases hpl : processLine i st l with
    | none => rw [hpl] at h; cases h
    | some st1 =>
      rw [hpl] at h
      exact runLinesAux_mono ls (i + 1) st1 st' h (processLine_mono i st st1 l hpl hm)

/-- C5: within one parse call, the line indexes of emitted events are
non-decreasing in emission order (the ghost trace records appends across
all voices), and a double-bar event's own line index is the counter value
before the increment the double bar itself triggers. -/
theorem C5_monotonic_line_indexes :
    (∀ (lines : List Str) (st : ParserState), runLines lines = some st →
      (traceLineIndexes st.trace).Pairwise (· ≤ ·)) ∧
    ∀ (st : ParserState) (i : Nat) (tok : Str) (b : BarEvent),
      parse_token tok st.default_duration st.logical_line_index = some (.bar b) →
      b.double = true →
      b.line_index = st.logical_line_index ∧
      (processToken i st tok).logical_line_index = st.logical_line_index + 1 := by
  constructor
  · intro lines st h
    refine (runLinesAux_mono lines 0 initState st h ⟨?_, ?_⟩).1
    · exact List.Pairwise.nil
    · intro p hp
      simp [initState] at hp
  · intro st i tok b hp hdb
    refine ⟨parse_token_lineIndex _ _ _ _ hp, ?_⟩
    unfold processToken
    rw [hp]
    dsimp only
    rw [if_pos (show isDoubleBar (.bar b) = true from hdb)]

/-- C5 witness: both parts exercised on the one-line input `["S || R"]`
(whose emitted line indexes are `[0, 0, 1]`) and on the double-bar token
`"||"` decoded in the initial state. -/
theorem C5_witness :
    (traceLineIndexes
        [(0, .note { swara := "S".toList, octave := 0, variant := none,
                     microtone := none, duration := 1, line_index := 0,
                     ornaments := [], lyric := none }),
         (0, .bar ⟨true, 0⟩),
         (0, .note { swara := "R".toList, octave := 0, variant := none,
                     microtone := none, duration := 1, line_index := 1,
                     ornaments := [], lyric := none })]).Pairwise (· ≤ ·) ∧
    (BarEvent.line_index ⟨true, 0⟩ = initState.logical_line_index ∧
      (processToken 0 initState "||".toList).logical_line_index
        = initState.logical_line_index + 1) := by
  constructor
  · exact C5_monotonic_line_indexes.1 ["S || R".toList]
      { directives := [],
        voices := [⟨"default".toList,
          [.note { swara := "S".toList, octave := 0, variant := none,
                   microtone := none, duration := 1, line_index := 0,
                   ornaments := [], lyric := none },
           .bar ⟨true, 0⟩,
           .note { swara := "R".toList, octave := 0, variant := none,
                   microtone := none, duration := 1, line_index := 1,
                   ornaments := [], lyric := none }]⟩],
        current_voice := some "default".toList,
        logical_line_index := 1, default_duration := 1,
        trace := [(0, .note { swara := "S".toList, octave := 0, variant := none,
                              microtone := none, duration := 1, line_index := 0,
                              ornaments := [], lyric := none }),
                  (0, .bar ⟨true, 0⟩),
                  (0, .note { swara := "R".toList, octave := 0, variant := none,
                              microtone := none, duration := 1, line_index := 1,
                              ornaments := [], lyric := none })] }
      (by decide)
  · exact C5_monotonic_line_indexes.2 initState 0 "||".toList ⟨true, 0⟩ (by decide) rfl

/-! ### Claim C9: the comment stripper and the variant field -/

theorem mem_pyStripChars (p : Char → Bool) (cs : Str) (c : Char)
    (h : c ∈ pyStripChars p cs) : c ∈ cs := by
  unfold pyStripChars at h
  rw [List.mem_reverse] at h
  have h1 := List.IsSuffix.subset (List.dropWhile_suffix p) h
  rw [List.mem_reverse] at h1
  exact List.IsSuffix.subset (List.dropWhile_suffix p) h1

theorem splitWSAux_chars : ∀ (s acc tok : Str), tok ∈ splitWSAux s acc →
    ∀ c ∈ tok, c ∈ s ∨ c ∈ acc
  | [], acc, tok, htok, c, hc => by
    unfold splitWSAux at htok
    split at htok
    · cases htok
    · rcases List.mem_singleton.mp htok with rfl
      right
      rw [List.mem_reverse] at hc
      exact hc
  | a :: s, acc, tok, htok, c, hc => by
    unfold splitWSAux at htok
    split at htok
    · split at htok
      · rcases splitWSAux_chars s [] tok htok c hc with h | h
        · exact Or.inl (List.mem_cons_of_mem a h)
        · cases h
      · rcases List.mem_cons.mp htok with rfl | hmem
        · right
          rw [List.mem_reverse] at hc
          exact hc
        · rcases splitWSAux_chars s [] tok hmem c hc with h | h
          · exact Or.inl (List.mem_cons_of_mem a h)
          · cases h
    · rcases splitWSAux_chars s (a :: acc) tok htok c hc with h | h
      · exact Or.inl (List.mem_cons_of_mem a h)
      · rcases List.mem_cons.mp h with rfl | hmem
        · exact Or.inl (List.mem_cons_self _ _)
        · exact Or.inr hmem

/-- Tokens of a note line never contain `'#'`: everything from the first
`'#'` onward is removed before splitting. -/
theorem noteLineTokens_no_hash (line tok : Str)
    (h : tok ∈ noteLineTokens line) : '#' ∉ tok := by
  intro hc
  unfold noteLineTokens at h
  rcases splitWSAux_chars _ [] tok h '#' hc with h1 | h1
  · have h2 := mem_pyStripChars _ _ _ h1
    have h3 := List.mem_takeWhile_imp h2
    simp at h3
  · cases h1

theorem residualMods_subset (mods : Str) : residualMods mods ⊆ mods :=
  fun _ hc => List.mem_of_mem_filter hc

theorem swaraSplit_mods_subset (cs : Str) : (swaraSplit cs).2.1 ⊆ cs := by
  intro x hx
  cases cs with
  | nil =>
    have hx' : x ∈ ([] : Str) := hx
    cases hx'
  | cons c rest =>
    by_cases hk : (c == 'r' || c == 'g' || c == 'd' || c == 'n') = true
    · have he : swaraSplit (c :: rest) = (komalMap c, rest, true) := by
        show (if (c == 'r' || c == 'g' || c == 'd' || c == 'n') = true
            then (komalMap c, rest, true) else normalSplit (c :: rest))
          = (komalMap c, rest, true)
        rw [if_pos hk]
      rw [he] at hx
      have hx' : x ∈ rest := hx
      exact List.mem_cons_of_mem c hx'
    · have he : swaraSplit (c :: rest) = normalSplit (c :: rest) := by
        show (if (c == 'r' || c == 'g' || c == 'd' || c == 'n') = true
            then (komalMap c, rest, true) else normalSplit (c :: rest))
          = normalSplit (c :: rest)
        rw [if_neg hk]
      rw [he] at hx
      cases hfm : findModIdx (c :: rest) with
      | some i =>
        have he2 : normalSplit (c :: rest)
            = ((c :: rest).take i, (c :: rest).drop i, false) := by
          unfold normalSplit
          rw [hfm]
        rw [he2] at hx
        have hx' : x ∈ List.drop i (c :: rest) := hx
        exact List.drop_subset _ _ hx'
      | none =>
        have he2 : normalSplit (c :: rest) = (c :: rest, [], false) := by
          unfold normalSplit
          rw [hfm]
        rw [he2] at hx
        have hx' : x ∈ ([] : Str) := hx
        cases hx'

theorem durationSplit_fst_subset (cs : Str) : (durationSplit cs).1 ⊆ cs := by
  intro x hx
  unfold durationSplit at hx
  split at hx
  · exact hx
  · rename_i i hi
    split at hx
    · rename_i d hd
      have hx' : x ∈ List.take i cs := hx
      exact List.take_subset _ _ hx'
    · exact hx

theorem ornamentSplit_fst_subset (cs : Str) : (ornamentSplit cs).1 ⊆ cs := by
  intro x hx
  unfold ornamentSplit at hx
  split at hx
  · rename_i i hi
    have hx' : x ∈ List.take i cs := hx
    exact List.take_subset _ _ hx'
  · exact hx

theorem lyricSplit_fst_subset (cs : Str) : (lyricSplit cs).1 ⊆ cs := by
  intro x hx
  unfold lyricSplit at hx
  split at hx
  · have hx' : x ∈ cs.takeWhile (fun c => !(c == '=')) := hx
    exact List.Sublist.subset (List.takeWhile_sublist _) hx'
  · exact hx

theorem variantMicrotone_variant (k : Bool) (r v : Str)
    (h : (variantMicrotone k r).1 = some v) : v = "k".toList ∨ v = r := by
  unfold variantMicrotone at h
  split at h
  · cases Option.some.inj h
    exact Or.inl rfl
  · split at h
    · cases h
    · split at h
      · cases h
      · cases Option.some.inj h
        exact Or.inr rfl

theorem decodeNote_variant_chars (tok : Str) (dd : ℚ) (li : Nat) (v : Str)
    (h : (decodeNote tok dd li).variant = some v) :
    v = "k".toList ∨ v ⊆ tok := by
  have hv : (decodeNote tok dd li).variant
      = (variantMicrotone
          (swaraSplit (durationSplit (ornamentSplit (lyricSplit tok).1).1).1).2.2
          (residualMods
            (swaraSplit (durationSplit (ornamentSplit (lyricSplit tok).1).1).1).2.1)).1 := rfl
  rw [hv] at h
  rcases variantMicrotone_variant _ _ _ h with h1 | h1
  · exact Or.inl h1
  · subst h1
    refine Or.inr fun c hc => ?_
    have h2 := residualMods_subset _ hc
    have h3 := swaraSplit_mods_subset _ h2
    have h4 := durationSplit_fst_subset _ h3
    have h5 := ornamentSplit_fst_subset _ h4
    exact lyricSplit_fst_subset _ h5

/-- A token without `'#'` can only decode to an event whose variant is
also `'#'`-free. -/
theorem parse_token_variant_no_hash (tok : Str) (dd : ℚ) (li : Nat) (ev : Event)
    (htok : '#' ∉ tok) (h : parse_token tok dd li = some ev) :
    ∀ v, evVariant ev = some v → '#' ∉ v := by
  intro v hv hmem
  cases ev with
  | note n =>
    cases parse_token_note tok dd li n h
    rcases decodeNote_variant_chars tok dd li v hv with h1 | h1
    · subst h1
      simp at hmem
    · exact htok (h1 hmem)
  | rest r => cases hv
  | hold h' => cases hv
  | bar b => cases hv

/-- The variant field of an event contains no `'#'`. -/
def EventVariantOK (e : Event) : Prop := ∀ v, evVariant e = some v → '#' ∉ v

/-- Every event of every voice has a `'#'`-free variant. -/
def VoicesOK (vs : List Voice) : Prop := ∀ w ∈ vs, ∀ e ∈ w.events, EventVariantOK e

theorem voicesSetdefault_OK (vs : List Voice) (n : Str) (h : VoicesOK vs) :
    VoicesOK (voicesSetdefault vs n) := by
  unfold voicesSetdefault
  split
  · exact h
  · intro w hw e he
    rcases List.mem_append.mp hw with hmem | hmem
    · exact h w hmem e he
    · rcases List.mem_singleton.mp hmem with rfl
      cases he

theorem voicesAppend_OK (vs : List Voice) (n : Str) (ev : Event)
    (h : VoicesOK vs) (hev : EventVariantOK ev) :
    VoicesOK (voicesAppend vs n ev) := by
  intro w hw e he
  unfold voicesAppend at hw
  rcases List.mem_map.mp hw with ⟨w0, hw0, rfl⟩
  by_cases hn : (w0.name == n) = true
  · rw [if_pos hn] at he
    rcases List.mem_append.mp he with hmem | hmem
    · exact h w0 hw0 e hmem
    · rcases List.mem_singleton.mp hmem with rfl
      exact hev
  · rw [if_neg hn] at he
    exact h w0 hw0 e he

theorem processToken_voicesOK (i : Nat) (st : ParserState) (tok : Str)
    (htok : '#' ∉ tok) (h : VoicesOK st.voices) :
    VoicesOK (processToken i st tok).voices := by
  unfold processToken
  cases hp : parse_token tok st.default_duration st.logical_line_index with
  | none => exact h
  | some ev =>
    have hev : EventVariantOK ev :=
      fun v hv => parse_token_variant_no_hash tok _ _ ev htok hp v hv
    dsimp only
    by_cases hdb : isDoubleBar ev = true
    · rw [if_pos hdb]
      show VoicesOK (match st.current_voice with
        | some n => voicesAppend st.voices n ev
        | none => st.voices)
      cases st.current_voice with
      | some n => exact voicesAppend_OK _ _ _ h hev
      | none => exact h
    · rw [if_neg hdb]
      show VoicesOK (match st.current_voice with
        | some n => voicesAppend st.voices n ev
        | none => st.voices)
      cases st.current_voice with
      | some n => exact voicesAppend_OK _ _ _ h hev
      | none => exact h

theorem processTokens_voicesOK (i : Nat) : ∀ (toks : List Str) (st : ParserState),
    (∀ t ∈ toks, '#' ∉ t) → VoicesOK st.voices →
    VoicesOK ((toks.foldl (processToken i) st)).voices
  | [], _, _, h => h
  | t :: ts, st, htoks, h =>
    processTokens_voicesOK i ts (processToken i st t)
      (fun u hu => htoks u (List.mem_cons_of_mem t hu))
      (processToken_voicesOK i st t (htoks t (List.mem_cons_self t ts)) h)

theorem processLine_voicesOK (idx : Nat) (st st' : ParserState) (l : Str)
    (h : processLine idx st l = some st') (hv : VoicesOK st.voices) :
    VoicesOK st'.voices := by
  simp only [processLine] at h
  split at h
  · cases Option.some.inj h
    exact hv
  · set st1 := (if 0 < idx then
        { st with logical_line_index := st.logical_line_index + 1 } else st) with hst1
    have hv1 : VoicesOK st1.voices := by
      rw [hst1]
      by_cases hi : 0 < idx
      · rw [if_pos hi]; exact hv
      · rw [if_neg hi]; exact hv
    split at h
    · split at h
      · cases h
      · split at h
        · cases Option.some.inj h; exact hv1
        · cases Option.some.inj h; exact hv1
    · split at h
      · cases Option.some.inj h
        exact voicesSetdefault_OK _ _ hv1
      · cases Option.some.inj h
        set st2 := (if st1.current_voice = none then
            { st1 with voices := voicesSetdefault st1.voices "default".toList,
                       current_voice := some "default".toList } else st1) with hst2
        have hv2 : VoicesOK st2.voices := by
          rw [hst2]
          by_cases hcv : st1.current_voice = none
          · rw [if_pos hcv]
            exact voicesSetdefault_OK _ _ hv1
          · rw [if_neg hcv]; exact hv1
        exact processTokens_voicesOK idx _ st2
          (fun t ht => noteLineTokens_no_hash _ t ht) hv2

theorem runLinesAux_voicesOK : ∀ (rest : List Str) (i : Nat) (st st' : ParserState),
    runLinesAux i st rest = some st' → VoicesOK st.voices → VoicesOK st'.voices
  | [], _, _, _, h, hv => by
    cases Option.some.inj h
    exact hv
  | l :: ls, i, st, st', h, hv => by
    unfold runLinesAux at h
    cases hpl : processLine i st l with
    | none => rw [hpl] at h; cases h
    | some st1 =>
      rw [hpl] at h
      exact runLinesAux_voicesOK ls (i + 1) st1 st' h
        (processLine_voicesOK i st st1 l hpl hv)

/-- C9: no event produced by `parse_music_cell` carries a variant
containing `'#'`, and no token containing `'#'` is ever handed to the
token decoder: a note line is cut at its first `'#'` unconditionally, so
the decoder's own `'#'` accidental is unreachable through
`parse_music_cell`. -/
theorem C9_no_hash_in_variants :
    (∀ (lines : List String) (cell : MusicCell), parse_music_cell lines = some cell →
      ∀ w ∈ cell.voices, ∀ e ∈ w.events, ∀ v, evVariant e = some v → '#' ∉ v) ∧
    ∀ (line tok : Str), tok ∈ noteLineTokens line → '#' ∉ tok := by
  refine ⟨?_, fun line tok h => noteLineTokens_no_hash line tok h⟩
  intro lines cell h w hw e he v hv
  rcases Option.map_eq_some'.mp h with ⟨st, hst, rfl⟩
  have hOK := runLinesAux_voicesOK (lines.map String.toList) 0 initState st hst
    (fun w hw => by simp [initState] at hw)
  exact hOK w hw e he v hv

/-- C9 witness: on `["Sb#x"]` the comment is stripped, the surviving
token `"Sb"` is `'#'`-free and the decoded variant `"b"` is `'#'`-free. -/
theorem C9_witness : ('#' ∉ "b".toList) ∧ ('#' ∉ "Sb".toList) := by
  constructor
  · exact C9_no_hash_in_variants.1 ["Sb#x"]
      { directives := [],
        voices := [⟨"default".toList,
          [.note { swara := "S".toList, octave := 0, variant := some "b".toList,
                   microtone := none, duration := 1, line_index := 0,
                   ornaments := [], lyric := none }]⟩] }
      (by decide)
      ⟨"default".toList,
        [.note { swara := "S".toList, octave := 0, variant := some "b".toList,
                 microtone := none, duration := 1, line_index := 0,
                 ornaments := [], lyric := none }]⟩
      (by decide)
      (.note { swara := "S".toList, octave := 0, variant := some "b".toList,
               microtone := none, duration := 1, line_index := 0,
               ornaments := [], lyric := none })
      (by decide) "b".toList (by decide)
  · exact C9_no_hash_in_variants.2 "Sb#x".toList "Sb".toList (by decide)

end SargamV1
